import Mathlib

/-!
# Verification of the pytimelog core (entry store + time aggregator)

Shallow embedding of `src/pytimelog/ui.py` together with the storage layer
it calls.  Instants are modelled as `Int` seconds since the epoch (all
persisted instants are UTC, second granularity: `local_now()` zeroes the
microseconds), durations as `Int` (or `Nat`) seconds.  One minute is 60
seconds, one day 86400 seconds.
-/

namespace Pytimelog

/-- One recorded interval of activity (`Entry` in `storage.py`; fields per
spec §3: `start` UTC instant, `end` optional UTC instant, `text`
description). -/
structure Entry where
  start : Int
  «end» : Option Int
  text : String
  deriving DecidableEq, Repr

/-- Modelled from the spec (storage module is not under `src/`):
`find_open(entries)` returns the position of the first entry whose `end`
is absent, scanning in order; absent if none (spec §4.1). -/
def find_open : List Entry → Option Nat
  | [] => none
  | e :: es => if e.«end».isNone then some 0 else (find_open es).map (· + 1)

/-- Number of open entries (entries with `end` absent) in a list. -/
def countOpen (es : List Entry) : Nat :=
  (es.filter (fun e => e.«end».isNone)).length

/-- Errors surfaced by the command layer (`messagebox` warnings in
`ui.py`, taxonomy of spec §7). -/
inductive TLErr where
  | emptyText
  | alreadyRunning
  | nothingRunning
  deriving DecidableEq, Repr

/-- The characters Python's `str.strip()` removes: CPython's
`Py_UNICODE_ISSPACE` class — ASCII whitespace U+0009–U+000D and U+0020,
the separators U+001C–U+001F, NEL U+0085, NBSP U+00A0, Ogham space
U+1680, the Unicode space separators U+2000–U+200A, U+202F, U+205F and
U+3000, and the line/paragraph separators U+2028 and U+2029. -/
def pyWhitespace (c : Char) : Bool :=
  decide ((0x09 ≤ c.toNat ∧ c.toNat ≤ 0x0d) ∨ (0x1c ≤ c.toNat ∧ c.toNat ≤ 0x1f) ∨
    c.toNat = 0x20 ∨ c.toNat = 0x85 ∨ c.toNat = 0xa0 ∨ c.toNat = 0x1680 ∨
    (0x2000 ≤ c.toNat ∧ c.toNat ≤ 0x200a) ∨
    c.toNat = 0x2028 ∨ c.toNat = 0x2029 ∨ c.toNat = 0x202f ∨
    c.toNat = 0x205f ∨ c.toNat = 0x3000)

/-- Remove the leading and trailing characters satisfying `p` from a
character list. -/
def stripList (p : Char → Bool) (l : List Char) : List Char :=
  ((l.dropWhile p).reverse.dropWhile p).reverse

/-- Python's `str.strip()` with no argument: remove leading and trailing
whitespace (used in `start_entry`, `ui.py` line 134). -/
def pyStrip (s : String) : String :=
  String.mk (stripList pyWhitespace s.data)

/-- `TimeLogApp.start_entry` (`ui.py` lines 133-145), with the persisted
entry list passed explicitly (`read_entries`/`append_entry` modelled as
state passing).  Returns the new persisted list and the error shown, if
any. -/
def start_entry (raw : String) (now : Int) (es : List Entry) :
    List Entry × Option TLErr :=
  let text := pyStrip raw
  if text = "" then (es, some .emptyText)
  else if (find_open es).isSome then (es, some .alreadyRunning)
  else (es ++ [⟨now, none, text⟩], none)

/-- `TimeLogApp.stop_entry` (`ui.py` lines 147-159), with the persisted
entry list passed explicitly (`read_entries`/`write_entries` modelled as
state passing). -/
def stop_entry (now : Int) (es : List Entry) : List Entry × Option TLErr :=
  match find_open es with
  | none => (es, some .nothingRunning)
  | some idx =>
    match es[idx]? with
    | none => (es, some .nothingRunning)
    | some open_entry =>
      let now' := if now ≤ open_entry.start then open_entry.start + 60 else now
      (es.set idx ⟨open_entry.start, some now', open_entry.text⟩, none)

/-- A start/stop command with its reference instant, as issued by the UI. -/
inductive Cmd where
  | start (raw : String) (now : Int)
  | stop (now : Int)
  deriving Repr

/-- Effect of one command on the persisted entry list. -/
def step (es : List Entry) : Cmd → List Entry
  | .start raw now => (start_entry raw now es).1
  | .stop now => (stop_entry now es).1

/-- Effective end of an entry: `entry.end or now` (`ui.py` line 118). -/
def entryEnd (e : Entry) (now : Int) : Int :=
  e.«end».getD now

/-- Contribution of one entry to the daily total: its effective interval
clipped to the window, zero when the clipped interval is non-positive
(`ui.py` lines 118-123). -/
def clip (e : Entry) (now wS wE : Int) : Int :=
  let latest_start := max e.start wS
  let earliest_end := min (entryEnd e now) wE
  if earliest_end ≤ latest_start then 0 else earliest_end - latest_start

/-- The summation loop of `TimeLogApp.render_summary` (`ui.py` lines
116-123): total worked time within the window. -/
def daily_total (es : List Entry) (now wS wE : Int) : Int :=
  es.foldl (fun total e => total + clip e now wS wE) 0

/-- The clamping of `render_summary` (`ui.py` lines 126-128):
`remaining = target - total`, floored at zero. -/
def remaining (total target : Int) : Int :=
  let r := target - total
  if r < 0 then 0 else r

/-- `TimeLogApp.today_window` (`ui.py` lines 107-112) for a local timezone
of fixed offset `off` seconds (the `tzinfo` attached by
`datetime.astimezone()` is a fixed-offset timezone): the local calendar
date of `now` is `(now + off).fdiv 86400`, and
`datetime.combine(day, time.min, tzinfo).astimezone(utc)` is
`day * 86400 - off`. -/
def today_window (now off : Int) : Int × Int :=
  let today := (now + off).fdiv 86400
  (today * 86400 - off, (today + 1) * 86400 - off)

/-- Zero-padding to (at least) two digits, Python's `{n:02d}` for
non-negative `n`. -/
def pad2 (n : Nat) : String :=
  if n < 10 then "0" ++ toString n else toString n

/-- `format_duration` (`ui.py` lines 21-25) on a non-negative duration of
`d` whole seconds: `divmod(d, 3600)` then `divmod(remainder, 60)`,
rendered `f"{hours}h{minutes:02d}m"`. -/
def format_duration (d : Nat) : String :=
  let hours := d / 3600
  let remainder := d % 3600
  let minutes := remainder / 60
  toString hours ++ "h" ++ pad2 minutes ++ "m"

/-- `format_hhmm` (`ui.py` lines 28-31) on a non-negative duration of `d`
whole seconds: `total_minutes = d // 60`, `divmod(total_minutes, 60)`,
rendered `f"{hours:02d}:{minutes:02d}"`. -/
def format_hhmm (d : Nat) : String :=
  let total_minutes := d / 60
  let hours := total_minutes / 60
  let minutes := total_minutes % 60
  pad2 hours ++ ":" ++ pad2 minutes

/-- Spec-side description of the window start/end: the UTC instant of the
local midnight beginning calendar day `day`, for a local timezone of
fixed offset `off` seconds. -/
def localMidnightUTC (day off : Int) : Int :=
  day * 86400 - off

/-- Spec-side description: the local calendar date (as a day number) of
UTC instant `t` under fixed offset `off`. -/
def localDate (t off : Int) : Int :=
  (t + off).fdiv 86400

/-! ## Helper lemmas -/

theorem foldl_add_eq_add_sum (f : Entry → Int) (l : List Entry) (a : Int) :
    l.foldl (fun acc e => acc + f e) a = a + (l.map f).sum := by
  induction l generalizing a with
  | nil => simp
  | cons e es ih => simp [ih, add_assoc]

theorem daily_total_eq_sum_map (es : List Entry) (now wS wE : Int) :
    daily_total es now wS wE = (es.map (fun e => clip e now wS wE)).sum := by
  simpa using foldl_add_eq_add_sum (fun e => clip e now wS wE) es 0

theorem countOpen_nil : countOpen [] = 0 := rfl

theorem countOpen_cons (e : Entry) (es : List Entry) :
    countOpen (e :: es) = (if e.«end».isNone then 1 else 0) + countOpen es := by
  simp only [countOpen, List.filter_cons]
  split <;> simp [Nat.add_comm]

theorem countOpen_append (l1 l2 : List Entry) :
    countOpen (l1 ++ l2) = countOpen l1 + countOpen l2 := by
  simp [countOpen, List.filter_append]

theorem countOpen_eq_zero_of_find_open_none (es : List Entry)
    (h : find_open es = none) : countOpen es = 0 := by
  induction es with
  | nil => rfl
  | cons e es ih =>
    rw [countOpen_cons]
    simp only [find_open] at h
    split at h
    · exact absurd h (by simp)
    · rw [Option.map_eq_none'] at h
      simp_all

theorem countOpen_set_le (es : List Entry) (i : Nat) (e' : Entry)
    (h : e'.«end».isNone = false) : countOpen (es.set i e') ≤ countOpen es := by
  induction es generalizing i with
  | nil => simp
  | cons a as ih =>
    cases i with
    | zero =>
      rw [List.set_cons_zero, countOpen_cons, countOpen_cons, h]
      simp only [Bool.false_eq_true, if_false]
      split <;> omega
    | succ n =>
      rw [List.set_cons_succ, countOpen_cons, countOpen_cons]
      exact Nat.add_le_add_left (ih n) _

theorem step_preserves_countOpen (es : List Entry) (c : Cmd)
    (h : countOpen es ≤ 1) : countOpen (step es c) ≤ 1 := by
  cases c with
  | start raw now =>
    dsimp only [step, start_entry]
    split
    · exact h
    · split
      · exact h
      · rename_i hfo
        rw [countOpen_append]
        have : countOpen es = 0 :=
          countOpen_eq_zero_of_find_open_none es (by simpa using hfo)
        simp [this, countOpen_cons, countOpen_nil]
  | stop now =>
    dsimp only [step, stop_entry]
    split
    · exact h
    · split
      · exact h
      · exact le_trans (countOpen_set_le _ _ _ rfl) h

theorem head_dropWhile_not (p : Char → Bool) (l : List Char) (c : Char)
    (h : (l.dropWhile p).head? = some c) : p c = false := by
  induction l with
  | nil => simp [List.dropWhile] at h
  | cons a as ih =>
    rw [List.dropWhile_cons] at h
    split at h
    · exact ih h
    · rename_i hp
      simp only [List.head?_cons, Option.some.injEq] at h
      subst h
      simpa using hp

theorem dropWhile_eq_self_of_head (p : Char → Bool) (l : List Char)
    (h : ∀ c, l.head? = some c → p c = false) : l.dropWhile p = l := by
  cases l with
  | nil => rfl
  | cons a as => rw [List.dropWhile_cons, h a rfl]; simp

theorem getLast_dropWhile_of_ne_nil (p : Char → Bool) (l : List Char)
    (h : l.dropWhile p ≠ []) : (l.dropWhile p).getLast? = l.getLast? := by
  induction l with
  | nil => simp [List.dropWhile] at h
  | cons a as ih =>
    by_cases hp : p a = true
    · rw [List.dropWhile_cons, if_pos hp] at h ⊢
      rw [ih h]
      have has : as ≠ [] := by
        intro heq
        rw [heq] at h
        simp [List.dropWhile] at h
      cases as with
      | nil => exact absurd rfl has
      | cons b bs => rw [List.getLast?_cons_cons]
    · rw [List.dropWhile_cons, if_neg hp]

theorem stripList_head_not (p : Char → Bool) (l : List Char) (c : Char)
    (h : (stripList p l).head? = some c) : p c = false := by
  rw [stripList, List.head?_reverse] at h
  have hne : (l.dropWhile p).reverse.dropWhile p ≠ [] := by
    intro he
    rw [he] at h
    simp at h
  rw [getLast_dropWhile_of_ne_nil p _ hne, List.getLast?_reverse] at h
  exact head_dropWhile_not p _ c h

theorem stripList_getLast_not (p : Char → Bool) (l : List Char) (c : Char)
    (h : (stripList p l).getLast? = some c) : p c = false := by
  rw [stripList, List.getLast?_reverse] at h
  exact head_dropWhile_not p _ c h

theorem stripList_idem (p : Char → Bool) (l : List Char) :
    stripList p (stripList p l) = stripList p l := by
  have h1 : (stripList p l).dropWhile p = stripList p l :=
    dropWhile_eq_self_of_head p _ (fun c hc => stripList_head_not p l c hc)
  have h2 : (stripList p l).reverse.dropWhile p = (stripList p l).reverse := by
    apply dropWhile_eq_self_of_head
    intro c hc
    rw [List.head?_reverse] at hc
    exact stripList_getLast_not p l c hc
  calc stripList p (stripList p l)
      = (((stripList p l).dropWhile p).reverse.dropWhile p).reverse := rfl
    _ = ((stripList p l).reverse.dropWhile p).reverse := by rw [h1]
    _ = (stripList p l).reverse.reverse := by rw [h2]
    _ = stripList p l := List.reverse_reverse _

theorem pyStrip_idem (s : String) : pyStrip (pyStrip s) = pyStrip s :=
  congrArg String.mk (stripList_idem pyWhitespace s.data)

/-! ## Claim theorems -/

/-- C7: for every total and target duration, `remaining(total, target)`
equals `max(target - total, 0)`; it is never negative, and it is zero
whenever `total >= target` (`ui.py` lines 126-128). -/
theorem remaining_clamped (total target : Int) :
    remaining total target = max (target - total) 0 ∧
    0 ≤ remaining total target ∧
    (target ≤ total → remaining total target = 0) := by
  refine ⟨?_, ?_, fun h => ?_⟩ <;> simp only [remaining] <;> split <;> omega

theorem remaining_clamped_witness :
    remaining 540 480 = max (480 - 540) 0 ∧
    (0 : Int) ≤ remaining 540 480 ∧
    remaining 540 480 = 0 := by
  have h := remaining_clamped 540 480
  exact ⟨h.1, h.2.1, h.2.2 (by decide)⟩

/-- C2: every entry written by the stop command has `end` strictly
greater than `start`; when `now <= start` the written end is exactly
`start + 1 minute` (`ui.py` lines 153-158). -/
theorem stop_entry_positive_duration (now : Int) (es : List Entry) (idx : Nat)
    (e : Entry) (hfind : find_open es = some idx) (hget : es[idx]? = some e) :
    ∃ written_end : Int,
      (stop_entry now es).1 = es.set idx ⟨e.start, some written_end, e.text⟩ ∧
      e.start < written_end ∧
      (now ≤ e.start → written_end = e.start + 60) := by
  refine ⟨if now ≤ e.start then e.start + 60 else now, ?_, ?_, ?_⟩
  · simp [stop_entry, hfind, hget]
  · split <;> omega
  · intro h; simp [h]

theorem stop_entry_positive_duration_witness :
    ∃ written_end : Int,
      (stop_entry (-5) [⟨0, none, "coffee"⟩]).1 =
        ([⟨0, none, "coffee"⟩] : List Entry).set 0 ⟨0, some written_end, "coffee"⟩ ∧
      (0 : Int) < written_end ∧
      ((-5 : Int) ≤ 0 → written_end = 0 + 60) :=
  stop_entry_positive_duration (-5) [⟨0, none, "coffee"⟩] 0 ⟨0, none, "coffee"⟩
    (by decide) (by decide)

/-- C3 counterexample: the claim says the stop transition writes
`end = max(now, start + 1 minute)`, so a stop at `now = 30` of an entry
with `start = 0` should write `end = 60`; the code writes `end = 30`
(the coercion in `ui.py` line 155 fires only when `now <= start`). -/
theorem stop_entry_max_coercion_cex :
    (stop_entry 30 [⟨0, none, "coffee"⟩]).1 = [⟨0, some 30, "coffee"⟩] ∧
    max (30 : Int) (0 + 60) = 60 ∧
    (stop_entry 30 [⟨0, none, "coffee"⟩]).1 ≠ [⟨0, some (max 30 (0 + 60)), "coffee"⟩] := by
  refine ⟨by decide, by decide, by decide⟩

/-- C3 amended: the stop transition writes
`end = if now <= start then start + 1 minute else now`; in particular for
any `now` strictly after `start` (including `now` strictly between
`start` and `start + 1 minute`) the written end is `now` itself, not
`max(now, start + 1 minute)` (`ui.py` lines 153-158). -/
theorem stop_entry_conditional_coercion (now : Int) (es : List Entry) (idx : Nat)
    (e : Entry) (hfind : find_open es = some idx) (hget : es[idx]? = some e) :
    stop_entry now es =
      (es.set idx ⟨e.start, some (if now ≤ e.start then e.start + 60 else now), e.text⟩,
        none) ∧
    (e.start < now → (if now ≤ e.start then e.start + 60 else now) = now) := by
  constructor
  · simp [stop_entry, hfind, hget]
  · intro h
    rw [if_neg (by omega)]

theorem stop_entry_conditional_coercion_witness :
    stop_entry 30 [⟨0, none, "coffee"⟩] =
      (([⟨0, none, "coffee"⟩] : List Entry).set 0
        ⟨0, some (if (30 : Int) ≤ 0 then (0 : Int) + 60 else 30), "coffee"⟩, none) ∧
    ((0 : Int) < 30 → (if (30 : Int) ≤ 0 then (0 : Int) + 60 else 30) = 30) :=
  stop_entry_conditional_coercion 30 [⟨0, none, "coffee"⟩] 0 ⟨0, none, "coffee"⟩
    (by decide) (by decide)

/-- C4: `daily_total` adds, for each entry, the length of the clipped
interval `(max(start, window_start), min(end_or_now, window_end))` when
it is positive and zero otherwise; an entry whose effective interval lies
fully outside the window contributes exactly zero, and an entry fully
inside the window contributes its full effective duration
(`ui.py` lines 114-123). -/
theorem daily_total_clip_correct (es : List Entry) (e : Entry) (now wS wE : Int) :
    daily_total (es ++ [e]) now wS wE =
      daily_total es now wS wE + clip e now wS wE ∧
    (entryEnd e now ≤ wS ∨ wE ≤ e.start → clip e now wS wE = 0) ∧
    (wS ≤ e.start → entryEnd e now ≤ wE → e.start ≤ entryEnd e now →
      clip e now wS wE = entryEnd e now - e.start) := by
  refine ⟨?_, ?_, ?_⟩
  · simp [daily_total_eq_sum_map]
  · intro h
    simp only [clip]
    rw [if_pos (by rcases h with h | h <;> omega)]
  · intro h1 h2 h3
    simp only [clip]
    split <;> omega

theorem daily_total_clip_correct_witness :
    daily_total [⟨10, some 20, "a"⟩] 150 0 120 =
      daily_total [] 150 0 120 + clip ⟨10, some 20, "a"⟩ 150 0 120 ∧
    clip ⟨200, some 300, "b"⟩ 150 0 120 = 0 ∧
    clip ⟨10, some 20, "a"⟩ 150 0 120 = entryEnd ⟨10, some 20, "a"⟩ 150 - 10 := by
  have h1 := daily_total_clip_correct [] ⟨10, some 20, "a"⟩ 150 0 120
  have h2 := daily_total_clip_correct [] ⟨200, some 300, "b"⟩ 150 0 120
  exact ⟨by simpa using h1.1, h2.2.1 (by right; decide),
    by simpa using h1.2.2 (by decide) (by decide) (by decide)⟩

/-- C5: `daily_total` is invariant under any permutation of the entry
sequence — the clip-and-sum reduction of `ui.py` lines 116-123 is
order-independent. -/
theorem daily_total_perm_invariant (es es' : List Entry) (h : es.Perm es')
    (now wS wE : Int) :
    daily_total es now wS wE = daily_total es' now wS wE := by
  rw [daily_total_eq_sum_map, daily_total_eq_sum_map]
  exact (h.map _).sum_eq

theorem daily_total_perm_invariant_witness :
    daily_total [⟨10, some 20, "a"⟩, ⟨100, none, "b"⟩] 150 0 120 =
      daily_total [⟨100, none, "b"⟩, ⟨10, some 20, "a"⟩] 150 0 120 :=
  daily_total_perm_invariant _ _ (List.Perm.swap _ _ _) 150 0 120

/-- C6: for every reference instant and fixed local offset,
`today_window` returns the UTC instants of the local midnight beginning
`now`'s local calendar date and of the next local midnight; the window
contains `now`, spans exactly one day between consecutive midnights, and
its end coincides with `now + 24h` only when `now` is itself the local
midnight (the boundary is midnight-anchored, not `now`-anchored)
(`ui.py` lines 107-112). -/
theorem today_window_local_midnights (now off : Int) :
    (today_window now off).1 = localMidnightUTC (localDate now off) off ∧
    (today_window now off).2 = localMidnightUTC (localDate now off + 1) off ∧
    (today_window now off).1 ≤ now ∧
    now < (today_window now off).2 ∧
    (today_window now off).2 = (today_window now off).1 + 86400 ∧
    ((today_window now off).2 = now + 86400 ↔ (today_window now off).1 = now) := by
  have hpos : (0 : Int) < 86400 := by decide
  have hfd : (now + off).fdiv 86400 = (now + off) / 86400 :=
    Int.fdiv_eq_ediv _ (by decide)
  have hle : (now + off) / 86400 * 86400 ≤ now + off := Int.ediv_mul_le _ (by decide)
  have hlt : now + off < ((now + off) / 86400 + 1) * 86400 :=
    Int.lt_ediv_add_one_mul_self _ hpos
  simp only [today_window, localMidnightUTC, localDate, hfd]
  refine ⟨by trivial, by trivial, by omega, by omega, by omega, by omega⟩

theorem pad2_length : ∀ m < 100, (pad2 m).length = 2 := by decide

/-- C8 counterexample: the claim says `format_hhmm` renders two-digit
hours for every non-negative duration, i.e. a five-character
`<HH>:<MM>`; at 100 hours (360000 seconds) Python's `{hours:02d}`
produces a three-digit hours field and the six-character "100:00". -/
theorem format_hhmm_hours_width_cex :
    format_hhmm 360000 = "100:00" ∧ (format_hhmm 360000).length ≠ 5 :=
  ⟨by decide, by decide⟩

/-- C8 amended: `format_duration` renders `<H>h<MM>m` with hours not
zero-padded and minutes always exactly two digits; `format_hhmm` renders
`<HH>:<MM>` with minutes always exactly two digits and hours zero-padded
to exactly two digits whenever the hour count is below 100 (Python's
`{:02d}` is a minimum width, so larger hour counts widen the field);
both floor any sub-minute remainder, never rounding up
(`ui.py` lines 21-31). -/
theorem duration_formatters_render (d : Nat) :
    format_duration d = toString (d / 3600) ++ "h" ++ pad2 (d / 60 % 60) ++ "m" ∧
    format_hhmm d = pad2 (d / 3600) ++ ":" ++ pad2 (d / 60 % 60) ∧
    (pad2 (d / 60 % 60)).length = 2 ∧
    (d / 3600 < 100 → (pad2 (d / 3600)).length = 2) ∧
    format_duration d = format_duration (d / 60 * 60) ∧
    format_hhmm d = format_hhmm (d / 60 * 60) := by
  have hmin : d % 3600 / 60 = d / 60 % 60 := by omega
  have hhr : d / 60 / 60 = d / 3600 := by omega
  have t1 : d / 60 * 60 / 3600 = d / 3600 := by omega
  have t2 : d / 60 * 60 % 3600 / 60 = d % 3600 / 60 := by omega
  have t3 : d / 60 * 60 / 60 = d / 60 := by omega
  refine ⟨?_, ?_, ?_, ?_, ?_, ?_⟩
  · simp [format_duration, hmin]
  · simp [format_hhmm, hhr]
  · exact pad2_length _ (by omega)
  · exact fun h => pad2_length _ h
  · simp [format_duration, t1, t2]
  · simp [format_hhmm, t3]

theorem duration_formatters_render_witness :
    format_duration 3661 = toString (3661 / 3600) ++ "h" ++ pad2 (3661 / 60 % 60) ++ "m" ∧
    format_hhmm 3661 = pad2 (3661 / 3600) ++ ":" ++ pad2 (3661 / 60 % 60) ∧
    (pad2 (3661 / 60 % 60)).length = 2 ∧
    (pad2 (3661 / 3600)).length = 2 ∧
    format_duration 3661 = format_duration (3661 / 60 * 60) ∧
    format_hhmm 3661 = format_hhmm (3661 / 60 * 60) := by
  have h := duration_formatters_render 3661
  exact ⟨h.1, h.2.1, h.2.2.1, h.2.2.2.1 (by decide), h.2.2.2.2.1, h.2.2.2.2.2⟩

/-- C1: starting from an entry list with at most one open entry, after
any sequence of start/stop commands (in particular any strictly
alternating sequence) at most one entry in the list has an absent `end` —
the count of entries matching `find_open`'s predicate stays at most one
after every command, since any list of commands here also ranges over
every prefix of a longer sequence (`ui.py` lines 133-159). -/
theorem single_open_invariant (cmds : List Cmd) (es : List Entry)
    (h : countOpen es ≤ 1) : countOpen (cmds.foldl step es) ≤ 1 := by
  induction cmds generalizing es with
  | nil => exact h
  | cons c cs ih => exact ih _ (step_preserves_countOpen es c h)

theorem single_open_invariant_witness :
    countOpen ([] : List Entry) ≤ 1 ∧
    countOpen (List.foldl step []
      [Cmd.start "write" 0, Cmd.stop 600, Cmd.start "read" 1200]) ≤ 1 :=
  ⟨by decide, single_open_invariant _ [] (by decide)⟩

/-- C9: a start command issued with a non-empty description while an open
entry exists fails with `AlreadyRunning` and leaves the persisted entry
list unchanged, and a stop command issued when no open entry exists fails
with `NothingRunning` and leaves the persisted entry list unchanged
(`ui.py` lines 138-141 and 148-152). -/
theorem rejected_commands_leave_state (raw : String) (now : Int)
    (es es' : List Entry) :
    (pyStrip raw ≠ "" → (find_open es).isSome →
      start_entry raw now es = (es, some .alreadyRunning)) ∧
    (find_open es' = none → stop_entry now es' = (es', some .nothingRunning)) := by
  constructor
  · intro ht hopen
    simp [start_entry, ht, hopen]
  · intro hnone
    simp [stop_entry, hnone]

theorem rejected_commands_leave_state_witness :
    start_entry "work" 100 [⟨0, none, "x"⟩] =
      ([⟨0, none, "x"⟩], some TLErr.alreadyRunning) ∧
    stop_entry 100 [] = ([], some TLErr.nothingRunning) := by
  have h := rejected_commands_leave_state "work" 100 [⟨0, none, "x"⟩] []
  exact ⟨h.1 (by decide) (by decide), h.2 (by decide)⟩

/-- C10: the start command strips leading and trailing whitespace from
the supplied description; if the stripped result is empty the command is
rejected without appending any entry; and every entry it does create
carries the stripped text, which is non-empty and has no surrounding
whitespace (stripping it again changes nothing)
(`ui.py` lines 133-144). -/
theorem start_entry_strip_reject (raw : String) (now : Int) (es es' : List Entry) :
    (pyStrip raw = "" → start_entry raw now es = (es, some .emptyText)) ∧
    (start_entry raw now es = (es', none) →
      es' = es ++ [⟨now, none, pyStrip raw⟩] ∧ pyStrip raw ≠ "" ∧
      pyStrip (pyStrip raw) = pyStrip raw) := by
  constructor
  · intro h
    simp [start_entry, h]
  · intro h
    simp only [start_entry] at h
    by_cases h1 : pyStrip raw = ""
    · rw [if_pos h1] at h
      simp at h
    · rw [if_neg h1] at h
      by_cases h2 : (find_open es).isSome
      · rw [if_pos h2] at h
        simp at h
      · rw [if_neg h2] at h
        injection h with h3 h4
        exact ⟨h3.symm, h1, pyStrip_idem raw⟩

theorem start_entry_strip_reject_witness :
    start_entry "   " 5 [] = ([], some TLErr.emptyText) ∧
    ([⟨5, none, "hi"⟩] : List Entry) = [] ++ [⟨5, none, pyStrip "  hi  "⟩] ∧
      pyStrip "  hi  " ≠ "" ∧ pyStrip (pyStrip "  hi  ") = pyStrip "  hi  " := by
  have h1 := start_entry_strip_reject "   " 5 [] []
  have h2 := start_entry_strip_reject "  hi  " 5 [] [⟨5, none, "hi"⟩]
  exact ⟨h1.1 (by decide), h2.2 (by decide)⟩

end Pytimelog
